import Mathlib

/-!
Verification of `cupyx/scipy/signal/signaltools.py` (filtering entry points
`wiener`, `order_filter`, `medfilt`, `medfilt2d` and the shared kernel-size
resolver `_get_kernel_size`).

Numeric values are modelled by exact rationals (`ℚ`).  An N-dimensional array
is a shape together with a total valuation on multi-indices; reading at an
out-of-bounds index through `getPad` yields the constant-mode padding value 0,
which is how `mode='constant'` boundary handling enters every filter.

The collaborators `cupyx.scipy.ndimage.filters.uniform_filter`,
`cupyx.scipy.ndimage.filters.rank_filter` and
`cupyx.scipy.ndimage._util._fix_sequence_arg` belong to this repository but
are not part of the excerpt, so they are modelled from the spec (their doc
comments say so and from which spec clause).
-/

namespace Signaltools

/-- Element-type tag of an array (spec §3: signed/unsigned integer, boolean,
or floating point). Values are modelled by `ℚ` regardless of the tag. -/
inductive DType where
  | bool
  | sint
  | uint
  | float
deriving DecidableEq, Repr

/-- A dense N-dimensional array: a shape, an element-type tag and a valuation
on multi-indices. Only indices inside the shape are meaningful; `getPad`
realises constant-zero padding outside. -/
structure NDArray where
  shape : List Nat
  dtype : DType
  val : List Nat → ℚ

instance : Inhabited NDArray := ⟨⟨[], .float, fun _ => 0⟩⟩

/-- Number of dimensions (`.ndim` in the source). -/
def NDArray.ndim (a : NDArray) : Nat := a.shape.length

/-- All multi-indices of a given shape, in row-major order. -/
def indicesList : List Nat → List (List Nat)
  | [] => [[]]
  | n :: rest => (List.range n).flatMap fun i => (indicesList rest).map (i :: ·)

/-- Whether a (possibly negative) multi-index lies inside a shape. -/
def inBoundsIdx (idx : List Int) (shape : List Nat) : Bool :=
  idx.length == shape.length &&
    (List.zip idx shape).all fun p => decide (0 ≤ p.1) && decide (p.1 < (p.2 : Int))

/-- Read with constant-zero boundary padding (`mode='constant'`, cval 0). -/
def NDArray.getPad (a : NDArray) (idx : List Int) : ℚ :=
  if inBoundsIdx idx a.shape then a.val (idx.map Int.toNat) else 0

/-- Shift an in-bounds multi-index by a (possibly negative) offset vector. -/
def addOffset (idx : List Nat) (off : List Int) : List Int :=
  List.zipWith (fun (i : Nat) (d : Int) => (i : Int) + d) idx off

/-- Per-axis window offsets for a window of extent `k` centred at the origin:
`j - k / 2` for `j < k` (for odd `k` this is `-(k/2) .. k/2`). -/
def axisOffsets (k : Nat) : List Int :=
  (List.range k).map fun (j : Nat) => ((j : Int) - ((k / 2 : Nat) : Int))

/-- All offset vectors of a full rectangular window of the given extents. -/
def windowOffsets : List Nat → List (List Int)
  | [] => [[]]
  | k :: rest => (axisOffsets k).flatMap fun o => (windowOffsets rest).map (o :: ·)

/-- Elementwise combination of two same-shaped arrays. -/
def NDArray.map2 (f : ℚ → ℚ → ℚ) (a b : NDArray) : NDArray :=
  ⟨a.shape, a.dtype, fun i => f (a.val i) (b.val i)⟩

def NDArray.add (a b : NDArray) : NDArray := a.map2 (· + ·) b

def NDArray.sub (a b : NDArray) : NDArray := a.map2 (· - ·) b

def NDArray.mul (a b : NDArray) : NDArray := a.map2 (· * ·) b

/-- `im.astype(float, copy=False)`: retags the element type; values are
already exact rationals so the cast is value-preserving. -/
def NDArray.astypeFloat (a : NDArray) : NDArray := ⟨a.shape, .float, a.val⟩

/-- `a.mean()`: sum of all elements divided by the element count. -/
def NDArray.mean (a : NDArray) : ℚ :=
  ((indicesList a.shape).map a.val).sum / (a.shape.prod : ℚ)

/-- `cupy.where(cond, x, y)` for same-shaped operands. -/
def cwhere (cond : List Nat → Bool) (x y : NDArray) : NDArray :=
  ⟨x.shape, x.dtype, fun i => if cond i then x.val i else y.val i⟩

/-- Insert into an ascending-sorted list (stable). -/
def insertAsc (x : ℚ) : List ℚ → List ℚ
  | [] => [x]
  | y :: ys => if x ≤ y then x :: y :: ys else y :: insertAsc x ys

/-- Stable ascending insertion sort (spec §4.2 tie-break: stable ascending). -/
def sortAsc : List ℚ → List ℚ
  | [] => []
  | x :: xs => insertAsc x (sortAsc xs)

/-- A neighborhood mask: shape plus a boolean selector on its cells
(spec §3 Footprint). -/
structure Footprint where
  shape : List Nat
  mask : List Nat → Bool

/-- The footprint-true offset vectors, centred at `shape / 2` per axis. -/
def Footprint.offsets (fp : Footprint) : List (List Int) :=
  ((indicesList fp.shape).filter fp.mask).map fun p =>
    List.zipWith (fun (i : Nat) (k : Nat) => (i : Int) - (k / 2 : Nat)) p fp.shape

/-- The all-true rectangular footprint of the given extents (what passing
`size=kernel_size` to the rank filter means). -/
def fullFootprint (ks : List Nat) : Footprint := ⟨ks, fun _ => true⟩

/-- Modelled from the spec: `cupyx.scipy.ndimage.filters.uniform_filter` is
not part of the excerpt.  Spec §4.6/§6: separable moving-average over the
window, constant/zero boundary padding, same output shape. -/
def uniform_filter (a : NDArray) (size : List Nat) : NDArray :=
  ⟨a.shape, a.dtype, fun idx =>
    (((windowOffsets size).map fun o => a.getPad (addOffset idx o)).sum) / (size.prod : ℚ)⟩

/-- Modelled from the spec: `cupyx.scipy.ndimage.filters.rank_filter` is not
part of the excerpt.  Spec §4.2: gather the footprint-selected neighborhood
(constant-zero padded), sort ascending, select the `rank`-th element; output
dtype is the caller's override or else the input dtype; same output shape. -/
def rank_filter (a : NDArray) (rank : Nat) (fp : Footprint) (output : Option DType) :
    NDArray :=
  ⟨a.shape, output.getD a.dtype, fun idx =>
    (sortAsc ((fp.offsets).map fun o => a.getPad (addOffset idx o))).getD rank 0⟩

/-- Abstract error kinds raised by the entry points (spec §7). -/
inductive SigError where
  | shapeMismatch
  | invalidKernelSize
  | invalidFootprint
  | notTwoD
deriving DecidableEq, Repr

/-- A kernel-size argument: a scalar or a per-axis sequence. -/
inductive KernelSpec where
  | scalar (k : Nat)
  | seq (ks : List Nat)
deriving DecidableEq, Repr

/-- Modelled from the spec: `cupyx.scipy.ndimage._util._fix_sequence_arg` is
not part of the excerpt.  Spec §4.1: a scalar broadcasts to every axis; a
sequence must have length `ndim`, otherwise the shape-mismatch error.  (The
oddness check is not here: in the source it lives in `_get_kernel_size`.) -/
def fix_sequence_arg (x : KernelSpec) (ndim : Nat) : Except SigError (List Nat) :=
  match x with
  | .scalar k => .ok (List.replicate ndim k)
  | .seq ks => if ks.length = ndim then .ok ks else .error .shapeMismatch

/-- `_get_kernel_size(kernel_size, ndim)` from the source: default `(3,)*ndim`,
normalise via `_fix_sequence_arg`, then reject any even element. -/
def _get_kernel_size (kernel_size : Option KernelSpec) (ndim : Nat) :
    Except SigError (List Nat) :=
  match fix_sequence_arg (kernel_size.getD (.seq (List.replicate ndim 3))) ndim with
  | .error e => .error e
  | .ok ks => if ks.any fun k => k % 2 ≠ 1 then .error .invalidKernelSize else .ok ks

/-- `local_mean = uniform_filter(im, mysize, mode='constant')` on the
float-cast input (source line 76). -/
def wienerLocalMean (im : NDArray) (ms : List Nat) : NDArray :=
  uniform_filter im.astypeFloat ms

/-- `local_var = uniform_filter(im*im, mysize, mode='constant')` followed by
the in-place `local_var -= local_mean*local_mean` (source lines 79-80). -/
def wienerLocalVar (im : NDArray) (ms : List Nat) : NDArray :=
  (uniform_filter (im.astypeFloat.mul im.astypeFloat) ms).sub
    ((wienerLocalMean im ms).mul (wienerLocalMean im ms))

/-- The noise power actually used: the caller's value, or
`local_var.mean()` when absent (source lines 83-84). -/
def wienerNoise (im : NDArray) (ms : List Nat) (noise : Option ℚ) : ℚ :=
  noise.getD (wienerLocalVar im ms).mean

/-- `res = im - local_mean; res *= (1 - noise / local_var); res += local_mean`
(source lines 87-89).  The elementwise `*=` divides by `local_var` at every
position, unconditionally. -/
def wienerRes (im : NDArray) (ms : List Nat) (noise : Option ℚ) : NDArray :=
  ((im.astypeFloat.sub (wienerLocalMean im ms)).map2
      (fun r v => r * (1 - wienerNoise im ms noise / v)) (wienerLocalVar im ms)).add
    (wienerLocalMean im ms)

/-- `wiener(im, mysize, noise)` from the source, line by line:
normalise `mysize` (no oddness check), cast to float, two uniform-filter
passes for local mean and local variance, estimate `noise` if absent, form
`res` by in-place arithmetic, and select with `cupy.where` (line 90). -/
def wiener (im : NDArray) (mysize : Option KernelSpec) (noise : Option ℚ) :
    Except SigError NDArray :=
  match fix_sequence_arg (mysize.getD (.scalar 3)) im.ndim with
  | .error e => .error e
  | .ok ms =>
    .ok (cwhere (fun i => decide ((wienerLocalVar im ms).val i < wienerNoise im ms noise))
      (wienerLocalMean im ms) (wienerRes im ms noise))

/-- `order_filter(a, domain, rank)` from the source: reject an even domain
extent, then delegate to the rank filter with the caller's footprint. -/
def order_filter (a : NDArray) (domain : Footprint) (rank : Nat) :
    Except SigError NDArray :=
  if domain.shape.any fun x => x % 2 ≠ 1 then .error .invalidFootprint
  else .ok (rank_filter a rank domain none)

/-- `medfilt(volume, kernel_size)` from the source: resolve the kernel size,
warn (non-fatally) when a kernel extent exceeds the volume extent, then rank
filter at `prod(kernel_size) // 2` with float output.  The emitted warning is
returned as the boolean component. -/
def medfilt (volume : NDArray) (kernel_size : Option KernelSpec) :
    Except SigError (Bool × NDArray) :=
  match _get_kernel_size kernel_size volume.ndim with
  | .error e => .error e
  | .ok ks =>
    let warned := (List.zip ks volume.shape).any fun p => decide (p.1 > p.2)
    let size := ks.prod
    .ok (warned, rank_filter volume (size / 2) (fullFootprint ks) (some .float))

/-- `medfilt2d(input, kernel_size)` from the source: reject non-2-D input,
resolve the kernel size, rank filter at `kernel_size[0]*kernel_size[1] // 2`
with no output-dtype override. -/
def medfilt2d (input : NDArray) (kernel_size : KernelSpec) :
    Except SigError NDArray :=
  if input.ndim ≠ 2 then .error .notTwoD
  else
    match _get_kernel_size (some kernel_size) input.ndim with
    | .error e => .error e
    | .ok ks =>
      let order := ks.getD 0 0 * ks.getD 1 0 / 2
      .ok (rank_filter input order (fullFootprint ks) none)

/-! ### Spec-side definitions

These restate, in the spec's own words, the per-pixel quantities the claims
talk about; the refinement theorems compare them with the code path above. -/

/-- The sliding-window box-filter mean as the spec words it: the average of
the neighborhood values under constant/zero boundary padding. -/
def specBoxMean (a : NDArray) (ms : List Nat) (idx : List Nat) : ℚ :=
  (((windowOffsets ms).map fun o => a.getPad (addOffset idx o)).sum) / (ms.prod : ℚ)

/-- The spec's `local_mean` at a pixel. -/
def specLocalMean (im : NDArray) (ms : List Nat) (idx : List Nat) : ℚ :=
  specBoxMean im ms idx

/-- The spec's `local_var` at a pixel: mean of squares minus squared mean. -/
def specLocalVar (im : NDArray) (ms : List Nat) (idx : List Nat) : ℚ :=
  specBoxMean ⟨im.shape, im.dtype, fun i => im.val i * im.val i⟩ ms idx -
    specLocalMean im ms idx * specLocalMean im ms idx

/-- The spec's effective noise power: the supplied value, or else the mean of
`local_var` over the whole array. -/
def specNoise (im : NDArray) (ms : List Nat) (noise : Option ℚ) : ℚ :=
  noise.getD
    (((indicesList im.shape).map (specLocalVar im ms)).sum / (im.shape.prod : ℚ))

/-- The spec's per-pixel Wiener result:
`local_mean + (im - local_mean) * (1 - noise/local_var)` where
`local_var ≥ noise`, and exactly `local_mean` where `local_var < noise`. -/
def specWienerPixel (im : NDArray) (ms : List Nat) (noise : Option ℚ) (idx : List Nat) : ℚ :=
  let lm := specLocalMean im ms idx
  let lv := specLocalVar im ms idx
  let nv := specNoise im ms noise
  if lv < nv then lm else lm + (im.val idx - lm) * (1 - nv / lv)

/-- The denominators of the divisions evaluated by the elementwise kernel of
`res *= (1 - noise / local_var)` (source line 88): the statement divides by
`local_var` at every position of the array, unconditionally — the
`cupy.where` selection of line 90 happens only afterwards. -/
def wienerDivisors (im : NDArray) (ms : List Nat) : List ℚ :=
  (indicesList im.shape).map fun idx => (wienerLocalVar im ms).val idx

/-- Whether an `Except` computation produced a value. -/
def isOk {α : Type} : Except SigError α → Bool
  | .ok _ => true
  | .error _ => false

/-- A position at which the whole window lies inside the array, so constant
padding contributes nothing there. -/
def interiorIdx (idx : List Nat) (ms : List Nat) (shape : List Nat) : Bool :=
  (windowOffsets ms).all fun o => inBoundsIdx (addOffset idx o) shape

/-! ### Heap model of `wiener`'s buffer writes

`wiener` casts with `copy=False` (the working reference may alias the
caller's buffer when the input is already floating point) and then updates
`local_var` and `res` in place.  To settle the frame-effect claim the call is
replayed over an explicit heap of buffers: allocation appends, an in-place
update overwrites one slot, and the caller's array sits in slot `0`. -/

abbrev Heap := List NDArray

/-- Allocate a fresh buffer: append and return its slot index. -/
def halloc (h : Heap) (a : NDArray) : Heap × Nat := (h ++ [a], h.length)

/-- `wiener` replayed over an explicit heap, with the caller's array in slot
`imId`.  `astype(float, copy=False)` keeps the slot when the dtype is already
float; `local_var -= …`, `res *= …`, `res += …` overwrite their own slots. -/
def wienerOnHeap (h0 : Heap) (imId : Nat) (mysize : Option KernelSpec) (noise : Option ℚ) :
    Except SigError (Heap × Nat) :=
  let im0 := h0.getD imId default
  match fix_sequence_arg (mysize.getD (.scalar 3)) im0.ndim with
  | .error e => .error e
  | .ok ms =>
    let (h1, imF) :=
      if im0.dtype = .float then (h0, imId) else halloc h0 im0.astypeFloat
    let imArr := h1.getD imF default
    let (h2, lmId) := halloc h1 (uniform_filter imArr ms)
    let (h3, lvId) := halloc h2 (uniform_filter (imArr.mul imArr) ms)
    let h4 := h3.set lvId
      ((h3.getD lvId default).sub ((h3.getD lmId default).mul (h3.getD lmId default)))
    let noiseV := noise.getD (h4.getD lvId default).mean
    let (h5, resId) := halloc h4 (imArr.sub (h4.getD lmId default))
    let h6 := h5.set resId
      ((h5.getD resId default).map2 (fun r v => r * (1 - noiseV / v)) (h5.getD lvId default))
    let h7 := h6.set resId ((h6.getD resId default).add (h6.getD lmId default))
    let (h8, outId) := halloc h7
      (cwhere (fun i => decide ((h7.getD lvId default).val i < noiseV))
        (h7.getD lmId default) (h7.getD resId default))
    .ok (h8, outId)

/-! ### Concrete example inputs and extracted outputs (for witnesses) -/

/-- A constant 1-D array of three ones. -/
def ex1d : NDArray := ⟨[3], .float, fun _ => 1⟩

/-- A non-constant 1-D array `[3, 5]`. -/
def ex1dVar : NDArray := ⟨[2], .float, fun i => if i = [0] then 3 else 5⟩

/-- A 2-D integer array of shape `2 × 2`. -/
def ex2d : NDArray := ⟨[2, 2], .sint, fun i => if i = [0, 0] then 4 else 7⟩

/-- An all-true 1-D footprint of extent 3. -/
def exDomain : Footprint := ⟨[3], fun _ => true⟩

/-- The array `wiener ex1d none none` returns. -/
def exWienerOut : NDArray :=
  match wiener ex1d none none with
  | .ok a => a
  | .error _ => default

/-- The array `wiener ex1dVar (scalar 3) (noise 1/2)` returns. -/
def exWienerOut2 : NDArray :=
  match wiener ex1dVar (some (.scalar 3)) (some (1/2)) with
  | .ok a => a
  | .error _ => default

/-- The array `order_filter ex1d exDomain 1` returns. -/
def exOrderOut : NDArray :=
  match order_filter ex1d exDomain 1 with
  | .ok a => a
  | .error _ => default

/-- What `medfilt ex1d none` returns (warning flag and array). -/
def exMedfiltOut : Bool × NDArray :=
  match medfilt ex1d none with
  | .ok p => p
  | .error _ => (true, default)

/-- What `medfilt ex1d (scalar 5)` returns (kernel exceeds the extent). -/
def exMedfiltWarnOut : Bool × NDArray :=
  match medfilt ex1d (some (.scalar 5)) with
  | .ok p => p
  | .error _ => (false, default)

/-- The array `medfilt2d ex2d (seq [3,3])` returns. -/
def exMedfilt2dOut : NDArray :=
  match medfilt2d ex2d (.seq [3, 3]) with
  | .ok a => a
  | .error _ => default

/-- The heap and result slot `wienerOnHeap [ex1d] 0 none (some 0)` returns. -/
def exHeapRes : Heap × Nat :=
  match wienerOnHeap [ex1d] 0 none (some 0) with
  | .ok p => p
  | .error _ => ([], 0)

/-! ### Shared helper lemmas -/

/-- The code's `local_mean` agrees pointwise with the spec's box mean. -/
lemma wienerLocalMean_val (im : NDArray) (ms : List Nat) (idx : List Nat) :
    (wienerLocalMean im ms).val idx = specLocalMean im ms idx := rfl

/-- The code's `local_var` agrees pointwise with the spec's
mean-of-squares-minus-squared-mean. -/
lemma wienerLocalVar_val (im : NDArray) (ms : List Nat) (idx : List Nat) :
    (wienerLocalVar im ms).val idx = specLocalVar im ms idx := rfl

/-- The noise power the code uses agrees with the spec's rule (supplied value,
else mean of the local variance over the whole array). -/
lemma wienerNoise_eq (im : NDArray) (ms : List Nat) (noise : Option ℚ) :
    wienerNoise im ms noise = specNoise im ms noise := by
  cases noise <;> rfl

/-- A window of extent `k` contributes exactly `k` per-axis offsets. -/
lemma axisOffsets_length (k : Nat) : (axisOffsets k).length = k := by
  rw [axisOffsets, List.length_map, List.length_range]

/-- A rectangular window of extents `ks` has `prod ks` offset vectors. -/
lemma windowOffsets_length (ks : List Nat) : (windowOffsets ks).length = ks.prod := by
  induction ks with
  | nil => rfl
  | cons k rest ih =>
    rw [windowOffsets, List.length_flatMap]
    have hgen : (List.length ∘ fun o => List.map (fun x => o :: x) (windowOffsets rest)) =
        fun _ : Int => rest.prod := by
      funext o
      simp [ih]
    rw [hgen, List.map_const', List.sum_replicate, smul_eq_mul, axisOffsets_length,
      List.prod_cons]

/-- At an interior position, the box mean of a constant-valued array is that
constant (the zero padding never contributes). -/
lemma specBoxMean_const (a : NDArray) (c : ℚ) (ms : List Nat) (idx : List Nat)
    (hc : ∀ i, a.val i = c) (hpos : ∀ k ∈ ms, 0 < k)
    (hint : interiorIdx idx ms a.shape = true) :
    specBoxMean a ms idx = c := by
  unfold interiorIdx at hint
  unfold specBoxMean
  have hmap : ((windowOffsets ms).map fun o => a.getPad (addOffset idx o)) =
      (windowOffsets ms).map fun _ => c := by
    apply List.map_congr_left
    intro o ho
    have hb := (List.all_eq_true.mp hint) o ho
    simp [NDArray.getPad, hb, hc]
  have hp : (0 : ℚ) < (ms.prod : ℚ) := by exact_mod_cast List.prod_pos hpos
  rw [hmap, List.map_const', List.sum_replicate, windowOffsets_length, nsmul_eq_mul]
  exact mul_div_cancel_left₀ c hp.ne'

/-! ### Theorems -/

/-- C9: the kernel-size resolver maps an absent specification to size 3 on
every axis, broadcasts a scalar to every axis, and fails with the
shape-mismatch error when a sequence's length differs from the array's number
of dimensions; `wiener`'s resolution path rejects a wrong-length sequence the
same way. -/
theorem kernel_size_resolution :
    (∀ ndim : Nat, _get_kernel_size none ndim = .ok (List.replicate ndim 3)) ∧
    (∀ k ndim : Nat, k % 2 = 1 →
      _get_kernel_size (some (.scalar k)) ndim = .ok (List.replicate ndim k)) ∧
    (∀ (ks : List Nat) (ndim : Nat), ks.length ≠ ndim →
      _get_kernel_size (some (.seq ks)) ndim = .error .shapeMismatch) ∧
    (∀ (im : NDArray) (ks : List Nat) (noise : Option ℚ), ks.length ≠ im.ndim →
      wiener im (some (.seq ks)) noise = .error .shapeMismatch) := by
  refine ⟨fun ndim => ?_, fun k ndim hk => ?_, fun ks ndim h => ?_, fun im ks noise h => ?_⟩
  · simp [_get_kernel_size, fix_sequence_arg, List.any_eq_true, List.mem_replicate]
  · simp [_get_kernel_size, fix_sequence_arg, List.any_eq_true, List.mem_replicate, hk]
  · simp [_get_kernel_size, fix_sequence_arg, h]
  · simp [wiener, fix_sequence_arg, h]

/-- C9 witness: concrete instances of all four resolver behaviours. -/
theorem kernel_size_resolution_witness :
    _get_kernel_size none 2 = .ok [3, 3] ∧
    _get_kernel_size (some (.scalar 5)) 2 = .ok [5, 5] ∧
    _get_kernel_size (some (.seq [3, 3])) 1 = .error .shapeMismatch ∧
    wiener ex1d (some (.seq [3, 3])) none = .error .shapeMismatch :=
  ⟨kernel_size_resolution.1 2,
   kernel_size_resolution.2.1 5 2 (by decide),
   kernel_size_resolution.2.2.1 [3, 3] 1 (by decide),
   kernel_size_resolution.2.2.2 ex1d [3, 3] none (by decide)⟩

/-- C1 counterexample: `wiener` performs no oddness validation, so with the
even window size 2 it succeeds and produces output instead of failing. -/
theorem wiener_accepts_even_window :
    isOk (wiener ex1d (some (.scalar 2)) (some 0)) = true := rfl

/-- C1 (amended): `medfilt`, `medfilt2d` and `order_filter` fail with the
invalid-kernel-size/footprint error as soon as any element of the resolved
kernel size or footprint shape is even, producing no output; `wiener`,
however, validates only the length of `mysize` (never oddness) and succeeds
on any window that resolves. -/
theorem even_size_policy :
    (∀ (volume : NDArray) (ks : Option KernelSpec) (l : List Nat),
      fix_sequence_arg (ks.getD (.seq (List.replicate volume.ndim 3))) volume.ndim = .ok l →
      (∃ k ∈ l, k % 2 = 0) →
      medfilt volume ks = .error .invalidKernelSize) ∧
    (∀ (input : NDArray) (ks : KernelSpec) (l : List Nat), input.ndim = 2 →
      fix_sequence_arg ks input.ndim = .ok l →
      (∃ k ∈ l, k % 2 = 0) →
      medfilt2d input ks = .error .invalidKernelSize) ∧
    (∀ (a : NDArray) (domain : Footprint) (rank : Nat),
      (∃ k ∈ domain.shape, k % 2 = 0) →
      order_filter a domain rank = .error .invalidFootprint) ∧
    (∀ (im : NDArray) (ms : Option KernelSpec) (noise : Option ℚ) (l : List Nat),
      fix_sequence_arg (ms.getD (.scalar 3)) im.ndim = .ok l →
      isOk (wiener im ms noise) = true) := by
  refine ⟨fun volume ks l h1 hev => ?_, fun input ks l h2 h1 hev => ?_,
    fun a domain rank hev => ?_, fun im ms noise l h1 => ?_⟩
  · obtain ⟨k, hkm, hk2⟩ := hev
    have hex : ∃ x ∈ l, x % 2 = 0 := ⟨k, hkm, hk2⟩
    simp [medfilt, _get_kernel_size, h1, hex]
  · obtain ⟨k, hkm, hk2⟩ := hev
    have hex : ∃ x ∈ l, x % 2 = 0 := ⟨k, hkm, hk2⟩
    rw [h2] at h1
    simp [medfilt2d, _get_kernel_size, h1, hex, h2]
  · obtain ⟨k, hkm, hk2⟩ := hev
    have hex : ∃ x ∈ domain.shape, x % 2 = 0 := ⟨k, hkm, hk2⟩
    simp [order_filter, hex]
  · simp [wiener, h1, isOk]

/-- C1 (amended) witness: concrete even-size rejections for the three rank
entry points and a concrete even-window success for `wiener`. -/
theorem even_size_policy_witness :
    medfilt ex1d (some (.seq [2])) = .error .invalidKernelSize ∧
    medfilt2d ex2d (.seq [2, 3]) = .error .invalidKernelSize ∧
    order_filter ex1d ⟨[2], fun _ => true⟩ 0 = .error .invalidFootprint ∧
    isOk (wiener ex1d (some (.scalar 4)) none) = true :=
  ⟨even_size_policy.1 ex1d (some (.seq [2])) [2] rfl ⟨2, by decide, rfl⟩,
   even_size_policy.2.1 ex2d (.seq [2, 3]) [2, 3] rfl rfl ⟨2, by decide, rfl⟩,
   even_size_policy.2.2.1 ex1d ⟨[2], fun _ => true⟩ 0 ⟨2, by decide, rfl⟩,
   even_size_policy.2.2.2 ex1d (some (.scalar 4)) none [4, 4, 4].tail.tail rfl⟩

/-- C5: `medfilt` computes rank `prod(kernel_size) // 2` and delegates to the
rank filter with a full rectangular window (constant boundary handling is
what `rank_filter`'s zero padding realises); `medfilt2d` fails on non-2-D
input, and with kernel size `(3,3)` selects rank 4, the true median of 9
values, with no output-dtype override. -/
theorem median_rank_selection :
    (∀ (volume : NDArray) (ks : Option KernelSpec) (l : List Nat),
      _get_kernel_size ks volume.ndim = .ok l →
      ∃ w, medfilt volume ks =
        .ok (w, rank_filter volume (l.prod / 2) (fullFootprint l) (some .float))) ∧
    (∀ (input : NDArray) (ks : KernelSpec), input.ndim ≠ 2 →
      medfilt2d input ks = .error .notTwoD) ∧
    (∀ input : NDArray, input.ndim = 2 →
      medfilt2d input (.seq [3, 3]) =
        .ok (rank_filter input 4 (fullFootprint [3, 3]) none)) := by
  refine ⟨fun volume ks l h => ?_, fun input ks h => ?_, fun input h => ?_⟩
  · exact ⟨(l.zip volume.shape).any fun p => decide (p.2 < p.1), by simp [medfilt, h]⟩
  · simp [medfilt2d, h]
  · simp [medfilt2d, h, _get_kernel_size, fix_sequence_arg]

/-- C5 witness: the default 1-D kernel gives rank `3 // 2 = 1`; a 1-D input
is rejected by `medfilt2d`; a 2-D input with kernel `(3,3)` gets rank 4. -/
theorem median_rank_selection_witness :
    (∃ w, medfilt ex1d none =
      .ok (w, rank_filter ex1d 1 (fullFootprint [3]) (some .float))) ∧
    medfilt2d ex1d (.scalar 3) = .error .notTwoD ∧
    medfilt2d ex2d (.seq [3, 3]) = .ok (rank_filter ex2d 4 (fullFootprint [3, 3]) none) :=
  ⟨median_rank_selection.1 ex1d none [3] rfl,
   median_rank_selection.2.1 ex1d (.scalar 3) (by decide),
   median_rank_selection.2.2 ex2d rfl⟩

/-- C6: the rank-order entry points `order_filter` and `medfilt2d` return an
array of the input's element type, while `medfilt` always returns a
floating-point array. -/
theorem output_dtype_policy :
    (∀ (a : NDArray) (domain : Footprint) (rank : Nat) (out : NDArray),
      order_filter a domain rank = .ok out → out.dtype = a.dtype) ∧
    (∀ (input : NDArray) (ks : KernelSpec) (out : NDArray),
      medfilt2d input ks = .ok out → out.dtype = input.dtype) ∧
    (∀ (volume : NDArray) (ks : Option KernelSpec) (w : Bool) (out : NDArray),
      medfilt volume ks = .ok (w, out) → out.dtype = .float) := by
  refine ⟨fun a domain rank out h => ?_, fun input ks out h => ?_,
    fun volume ks w out h => ?_⟩
  · unfold order_filter at h
    split at h
    · simp at h
    · injection h with h
      subst h; rfl
  · unfold medfilt2d at h
    split at h
    · simp at h
    · split at h
      · simp at h
      · injection h with h
        subst h; rfl
  · unfold medfilt at h
    split at h
    · simp at h
    · injection h with h
      rw [Prod.mk.injEq] at h
      rw [← h.2]; rfl

/-- C6 witness: concrete dtypes for the three entry points. -/
theorem output_dtype_policy_witness :
    exOrderOut.dtype = ex1d.dtype ∧
    exMedfilt2dOut.dtype = ex2d.dtype ∧
    exMedfiltOut.2.dtype = .float :=
  ⟨output_dtype_policy.1 ex1d exDomain 1 exOrderOut rfl,
   output_dtype_policy.2.1 ex2d (.seq [3, 3]) exMedfilt2dOut rfl,
   output_dtype_policy.2.2 ex1d none exMedfiltOut.1 exMedfiltOut.2 rfl⟩

/-- C7: once the kernel size resolves, `medfilt` always completes and returns
a result; its warning flag is set exactly when some kernel extent exceeds the
corresponding volume extent. -/
theorem medfilt_warning_nonfatal :
    ∀ (volume : NDArray) (ks : Option KernelSpec) (l : List Nat),
      _get_kernel_size ks volume.ndim = .ok l →
      medfilt volume ks =
        .ok (((l.zip volume.shape).any fun p => decide (p.2 < p.1)),
          rank_filter volume (l.prod / 2) (fullFootprint l) (some .float)) ∧
      (((l.zip volume.shape).any fun p => decide (p.2 < p.1)) = true ↔
        ∃ p ∈ l.zip volume.shape, p.2 < p.1) := by
  intro volume ks l h
  constructor
  · simp [medfilt, h]
  · simp [List.any_eq_true]

/-- C7 witness: kernel extent 5 over a length-3 volume warns yet completes;
the default kernel does not warn. -/
theorem medfilt_warning_nonfatal_witness :
    medfilt ex1d (some (.scalar 5)) =
      .ok (true, rank_filter ex1d 2 (fullFootprint [5]) (some .float)) ∧
    medfilt ex1d none =
      .ok (false, rank_filter ex1d 1 (fullFootprint [3]) (some .float)) :=
  ⟨(medfilt_warning_nonfatal ex1d (some (.scalar 5)) [5] rfl).1,
   (medfilt_warning_nonfatal ex1d none [3] rfl).1⟩

/-- C8: every filtering entry point returns an array with exactly the shape
of its primary input. -/
theorem output_shape_preserved :
    (∀ (im : NDArray) (ms : Option KernelSpec) (noise : Option ℚ) (out : NDArray),
      wiener im ms noise = .ok out → out.shape = im.shape) ∧
    (∀ (a : NDArray) (domain : Footprint) (rank : Nat) (out : NDArray),
      order_filter a domain rank = .ok out → out.shape = a.shape) ∧
    (∀ (volume : NDArray) (ks : Option KernelSpec) (w : Bool) (out : NDArray),
      medfilt volume ks = .ok (w, out) → out.shape = volume.shape) ∧
    (∀ (input : NDArray) (ks : KernelSpec) (out : NDArray),
      medfilt2d input ks = .ok out → out.shape = input.shape) := by
  refine ⟨fun im ms noise out h => ?_, fun a domain rank out h => ?_,
    fun volume ks w out h => ?_, fun input ks out h => ?_⟩
  · unfold wiener at h
    split at h
    · simp at h
    · injection h with h
      subst h; rfl
  · unfold order_filter at h
    split at h
    · simp at h
    · injection h with h
      subst h; rfl
  · unfold medfilt at h
    split at h
    · simp at h
    · injection h with h
      rw [Prod.mk.injEq] at h
      rw [← h.2]; rfl
  · unfold medfilt2d at h
    split at h
    · simp at h
    · split at h
      · simp at h
      · injection h with h
        subst h; rfl

/-- C8 witness: concrete shapes for the four entry points. -/
theorem output_shape_preserved_witness :
    exWienerOut.shape = ex1d.shape ∧
    exOrderOut.shape = ex1d.shape ∧
    exMedfiltOut.2.shape = ex1d.shape ∧
    exMedfilt2dOut.shape = ex2d.shape :=
  ⟨output_shape_preserved.1 ex1d none none exWienerOut rfl,
   output_shape_preserved.2.1 ex1d exDomain 1 exOrderOut rfl,
   output_shape_preserved.2.2.1 ex1d none exMedfiltOut.1 exMedfiltOut.2 rfl,
   output_shape_preserved.2.2.2 ex2d (.seq [3, 3]) exMedfilt2dOut rfl⟩

/-- C2: at every pixel, `wiener` returns
`local_mean + (im - local_mean) * (1 - noise/local_var)` where
`local_var ≥ noise` and exactly `local_mean` where `local_var < noise`, the
local statistics being the box-filter mean and mean-of-squares-minus-squared-
mean under constant/zero padding, and the noise defaulting to the mean of the
local variance over the whole array. -/
theorem wiener_pointwise_formula :
    ∀ (im : NDArray) (mysize : Option KernelSpec) (noise : Option ℚ)
      (l : List Nat) (out : NDArray),
      fix_sequence_arg (mysize.getD (.scalar 3)) im.ndim = .ok l →
      wiener im mysize noise = .ok out →
      ∀ idx : List Nat, out.val idx = specWienerPixel im l noise idx := by
  intro im mysize noise l out h1 h2 idx
  unfold wiener at h2
  rw [h1] at h2
  injection h2 with h2
  subst h2
  simp only [cwhere, specWienerPixel, wienerRes, NDArray.add, NDArray.sub, NDArray.map2,
    NDArray.astypeFloat, decide_eq_true_eq, wienerLocalVar_val, wienerLocalMean_val,
    wienerNoise_eq]
  split_ifs
  · rfl
  · ring

/-- C2 witness: the formula evaluated on the concrete array `[3, 5]` with
window 3 and noise 1/2. -/
theorem wiener_pointwise_formula_witness :
    wiener ex1dVar (some (.scalar 3)) (some (1/2)) = .ok exWienerOut2 ∧
    exWienerOut2.val [0] = specWienerPixel ex1dVar [3] (some (1/2)) [0] :=
  ⟨rfl, wiener_pointwise_formula ex1dVar (some (.scalar 3)) (some (1/2)) [3]
    exWienerOut2 rfl rfl [0]⟩

set_option maxHeartbeats 2000000 in
/-- C3 counterexample: on the constant array `[1, 1, 1]` with the default
window, the zero boundary padding makes the local variance at position 0
nonzero (it is 2/9), and the returned value there (7/9) differs from the
local mean (2/3) — the claim fails at boundary positions. -/
theorem wiener_constant_boundary_variance :
    (wienerLocalVar ex1d [3]).val [0] ≠ 0 ∧
    exWienerOut.val [0] ≠ (wienerLocalMean ex1d [3]).val [0] := by
  have hwo : windowOffsets [3] = [[-1], [0], [1]] := by decide
  have hlv : (wienerLocalVar ex1d [3]).val [0] = 2/9 := by
    norm_num [wienerLocalVar, wienerLocalMean, uniform_filter, hwo, NDArray.getPad,
      inBoundsIdx, addOffset, NDArray.astypeFloat, NDArray.sub, NDArray.mul, NDArray.map2, ex1d]
  have hlm : (wienerLocalMean ex1d [3]).val [0] = 2/3 := by
    norm_num [wienerLocalMean, uniform_filter, hwo, NDArray.getPad, inBoundsIdx, addOffset,
      NDArray.astypeFloat, ex1d]
  have hil : indicesList ([3] : List Nat) = [[0], [1], [2]] := by decide
  have hnv : wienerNoise ex1d [3] none = 4/27 := by
    norm_num [wienerNoise, NDArray.mean, wienerLocalVar, wienerLocalMean, uniform_filter,
      hwo, hil, NDArray.getPad, inBoundsIdx, addOffset, NDArray.astypeFloat, NDArray.sub,
      NDArray.mul, NDArray.map2, ex1d]
  have hexw : exWienerOut =
      cwhere (fun i => decide ((wienerLocalVar ex1d [3]).val i < wienerNoise ex1d [3] none))
        (wienerLocalMean ex1d [3]) (wienerRes ex1d [3] none) := rfl
  have hcond : ¬ ((wienerLocalVar ex1d [3]).val [0] < wienerNoise ex1d [3] none) := by
    rw [hlv, hnv]; norm_num
  have hres : (wienerRes ex1d [3] none).val [0] = 7/9 := by
    simp only [wienerRes, NDArray.add, NDArray.sub, NDArray.map2, NDArray.astypeFloat]
    rw [hlm, hnv, hlv]
    norm_num [ex1d]
  constructor
  · rw [hlv]; norm_num
  · rw [hexw]
    simp only [cwhere, hcond, decide_eq_true_eq, if_false, decide_eq_false hcond]
    rw [hres, hlm]
    norm_num

/-- C3 (amended): for a constant-valued input with positive window sizes and
positive effective noise (the supplied value, or the estimate when
unsupplied), the call completes (no division error), and at every position
whose window lies entirely inside the array the local variance is zero and
the `local_var < noise` override fires, so the output equals the local mean.
The positivity guard is required: with zero effective noise the override
`local_var < noise` cannot fire at a zero-variance position, and the value
then comes from the `res` branch, i.e. from the division itself.  The proof
below takes only the override branch and never uses the quotient's value. -/
theorem wiener_constant_interior :
    ∀ (im : NDArray) (c : ℚ) (mysize : Option KernelSpec) (noise : Option ℚ)
      (l : List Nat) (out : NDArray),
      (∀ i, im.val i = c) →
      (∀ k ∈ l, 0 < k) →
      fix_sequence_arg (mysize.getD (.scalar 3)) im.ndim = .ok l →
      wiener im mysize noise = .ok out →
      0 < wienerNoise im l noise →
      isOk (wiener im mysize noise) = true ∧
      ∀ idx : List Nat, interiorIdx idx l im.shape = true →
        (wienerLocalVar im l).val idx = 0 ∧
        out.val idx = (wienerLocalMean im l).val idx := by
  intro im c mysize noise l out hc hpos h1 h2 hn
  refine ⟨by simp [wiener, h1, isOk], fun idx hint => ?_⟩
  have hsq : ∀ i, (⟨im.shape, im.dtype, fun i => im.val i * im.val i⟩ : NDArray).val i
      = c * c := fun i => by simp [hc]
  have hlv : (wienerLocalVar im l).val idx = 0 := by
    rw [wienerLocalVar_val]
    unfold specLocalVar specLocalMean
    rw [specBoxMean_const _ (c * c) l idx hsq hpos hint,
      specBoxMean_const im c l idx hc hpos hint]
    ring
  refine ⟨hlv, ?_⟩
  unfold wiener at h2
  rw [h1] at h2
  injection h2 with h2
  subst h2
  have hcond : (wienerLocalVar im l).val idx < wienerNoise im l noise := by
    rw [hlv]; exact hn
  simp [cwhere, hcond]

set_option maxHeartbeats 2000000 in
/-- C3 (amended) witness: the constant array `[1, 1, 1]`, default window,
noise unsupplied (estimated as 4/27 > 0), at the interior position 1. -/
theorem wiener_constant_interior_witness :
    isOk (wiener ex1d none none) = true ∧
    ((wienerLocalVar ex1d [3]).val [1] = 0 ∧
      exWienerOut.val [1] = (wienerLocalMean ex1d [3]).val [1]) := by
  have hwo : windowOffsets [3] = [[-1], [0], [1]] := by decide
  have hil : indicesList ([3] : List Nat) = [[0], [1], [2]] := by decide
  have hnv : wienerNoise ex1d [3] none = 4/27 := by
    norm_num [wienerNoise, NDArray.mean, wienerLocalVar, wienerLocalMean, uniform_filter,
      hwo, hil, NDArray.getPad, inBoundsIdx, addOffset, NDArray.astypeFloat, NDArray.sub,
      NDArray.mul, NDArray.map2, ex1d]
  have hn : 0 < wienerNoise ex1d [3] none := by rw [hnv]; norm_num
  exact ⟨(wiener_constant_interior ex1d 1 none none [3] exWienerOut (fun _ => rfl)
      (by decide) rfl rfl hn).1,
    (wiener_constant_interior ex1d 1 none none [3] exWienerOut (fun _ => rfl)
      (by decide) rfl rfl hn).2 [1] (by decide)⟩

set_option maxHeartbeats 2000000 in
/-- C4 counterexample: the elementwise `res *= (1 - noise / local_var)` of
line 88 is evaluated before the `cupy.where` selection, so a denominator of
exactly zero is evaluated (at the interior position of `[1, 1, 1]`): the
override mask is not computed before or instead of the division. -/
theorem wiener_division_at_zero_variance :
    (0 : ℚ) ∈ wienerDivisors ex1d [3] := by
  have hwo : windowOffsets [3] = [[-1], [0], [1]] := by decide
  have hlv1 : (wienerLocalVar ex1d [3]).val [1] = 0 := by
    norm_num [wienerLocalVar, wienerLocalMean, uniform_filter, hwo, NDArray.getPad,
      inBoundsIdx, addOffset, NDArray.astypeFloat, NDArray.sub, NDArray.mul, NDArray.map2, ex1d]
  exact List.mem_map.mpr ⟨[1], by decide, hlv1⟩

/-- C4 (amended): the division is evaluated with denominator `local_var` at
every position, including zero-variance ones; the `cupy.where` selection
applied afterwards still returns exactly the local mean at every
zero-variance position whenever the effective noise is positive, independent
of the division's value. -/
theorem wiener_where_masks_zero_variance :
    ∀ (im : NDArray) (mysize : Option KernelSpec) (noise : Option ℚ)
      (l : List Nat) (out : NDArray) (idx : List Nat),
      fix_sequence_arg (mysize.getD (.scalar 3)) im.ndim = .ok l →
      wiener im mysize noise = .ok out →
      (wienerLocalVar im l).val idx = 0 →
      0 < wienerNoise im l noise →
      (idx ∈ indicesList im.shape → (0 : ℚ) ∈ wienerDivisors im l) ∧
      out.val idx = (wienerLocalMean im l).val idx := by
  intro im mysize noise l out idx h1 h2 hlv hn
  constructor
  · intro hmem
    exact List.mem_map.mpr ⟨idx, hmem, hlv⟩
  · unfold wiener at h2
    rw [h1] at h2
    injection h2 with h2
    subst h2
    have hcond : (wienerLocalVar im l).val idx < wienerNoise im l noise := by
      rw [hlv]; exact hn
    simp [cwhere, hcond]

set_option maxHeartbeats 2000000 in
/-- C4 (amended) witness: the constant array `[1, 1, 1]`, default window,
noise estimated (4/27 > 0), at the zero-variance interior position 1. -/
theorem wiener_where_masks_zero_variance_witness :
    ([1] ∈ indicesList ex1d.shape → (0 : ℚ) ∈ wienerDivisors ex1d [3]) ∧
    exWienerOut.val [1] = (wienerLocalMean ex1d [3]).val [1] := by
  have hwo : windowOffsets [3] = [[-1], [0], [1]] := by decide
  have hil : indicesList ([3] : List Nat) = [[0], [1], [2]] := by decide
  have hlv1 : (wienerLocalVar ex1d [3]).val [1] = 0 := by
    norm_num [wienerLocalVar, wienerLocalMean, uniform_filter, hwo, NDArray.getPad,
      inBoundsIdx, addOffset, NDArray.astypeFloat, NDArray.sub, NDArray.mul, NDArray.map2, ex1d]
  have hnv : wienerNoise ex1d [3] none = 4/27 := by
    norm_num [wienerNoise, NDArray.mean, wienerLocalVar, wienerLocalMean, uniform_filter,
      hwo, hil, NDArray.getPad, inBoundsIdx, addOffset, NDArray.astypeFloat, NDArray.sub,
      NDArray.mul, NDArray.map2, ex1d]
  exact wiener_where_masks_zero_variance ex1d none none [3] exWienerOut [1] rfl rfl hlv1
    (by rw [hnv]; norm_num)

/-- C10: `wiener` never modifies its caller's array.  Replaying the call over
an explicit heap with the caller's buffer in slot 0 — where
`astype(float, copy=False)` aliases slot 0 whenever the input is already
floating point, and the `local_var -= …`, `res *= …`, `res += …` updates
overwrite their own freshly allocated slots — slot 0 still holds the original
array when the call returns. -/
theorem wiener_does_not_mutate_input :
    ∀ (im : NDArray) (mysize : Option KernelSpec) (noise : Option ℚ)
      (h : Heap) (outId : Nat),
      wienerOnHeap [im] 0 mysize noise = .ok (h, outId) →
      h.getD 0 default = im := by
  intro im mysize noise h outId hcall
  rw [wienerOnHeap] at hcall
  simp only [List.getD_cons_zero] at hcall
  cases hfa : fix_sequence_arg (mysize.getD (.scalar 3)) im.ndim with
  | error e =>
    rw [hfa] at hcall
    exact absurd hcall (by simp)
  | ok ms =>
    rw [hfa] at hcall
    by_cases hdt : im.dtype = .float
    · simp only [if_pos hdt, halloc] at hcall
      injection hcall with hp
      rw [Prod.mk.injEq] at hp
      rw [← hp.1]
      rfl
    · simp only [if_neg hdt, halloc] at hcall
      injection hcall with hp
      rw [Prod.mk.injEq] at hp
      rw [← hp.1]
      rfl

/-- C10 witness: the concrete call on `[1, 1, 1]` leaves slot 0 intact. -/
theorem wiener_does_not_mutate_input_witness :
    wienerOnHeap [ex1d] 0 none (some 0) = .ok exHeapRes ∧
    exHeapRes.1.getD 0 default = ex1d :=
  ⟨rfl, wiener_does_not_mutate_input ex1d none (some 0) exHeapRes.1 exHeapRes.2 rfl⟩

end Signaltools
